import Mathlib

/-
Verification of the analysis-essentials repository.

The repository contains teaching notebooks and a CI workflow.  The
algorithmic content verified here is the sWeights (sPlot) computation
described in src/advanced-python/60sPlot.ipynb: the W_n formula with the
second-moment matrix V, the hep_ml-style closed form over normalized
per-event probabilities, and the per-event probability normalization
cell; together with the "Build webpage" GitHub Actions workflow and the
column-derivation cells of the pandas notebook.
-/

open Finset

/-- Per-event density values of the two classes, signal and background,
evaluated at the discriminating variable, as fed to the sWeight formula
in 60sPlot.ipynb. -/
structure DensityVals where
  fsig : ℚ
  fbkg : ℚ
deriving DecidableEq

/-- The denominator of the sWeight formula in 60sPlot.ipynb:
sum over classes k of N_k f_k(x). -/
def totalPdf (nsig nbkg : ℚ) (d : DensityVals) : ℚ :=
  nsig * d.fsig + nbkg * d.fbkg

/-- Entry (sig, sig) of the matrix V^-1 from 60sPlot.ipynb:
sum over events of f_sig(x_e) f_sig(x_e) / (sum_k N_k f_k(x_e))^2. -/
def vInvSS {n : ℕ} (nsig nbkg : ℚ) (f : Fin n → DensityVals) : ℚ :=
  ∑ e, (f e).fsig * (f e).fsig / (totalPdf nsig nbkg (f e)) ^ 2

/-- Entry (sig, bkg) of the matrix V^-1 from 60sPlot.ipynb. -/
def vInvSB {n : ℕ} (nsig nbkg : ℚ) (f : Fin n → DensityVals) : ℚ :=
  ∑ e, (f e).fsig * (f e).fbkg / (totalPdf nsig nbkg (f e)) ^ 2

/-- Entry (bkg, bkg) of the matrix V^-1 from 60sPlot.ipynb. -/
def vInvBB {n : ℕ} (nsig nbkg : ℚ) (f : Fin n → DensityVals) : ℚ :=
  ∑ e, (f e).fbkg * (f e).fbkg / (totalPdf nsig nbkg (f e)) ^ 2

/-- Determinant of the symmetric 2x2 matrix V^-1. -/
def detVInv {n : ℕ} (nsig nbkg : ℚ) (f : Fin n → DensityVals) : ℚ :=
  vInvSS nsig nbkg f * vInvBB nsig nbkg f - vInvSB nsig nbkg f ^ 2

/-- Entry (sig, sig) of V, the inverse of the 2x2 matrix V^-1. -/
def vMatSS {n : ℕ} (nsig nbkg : ℚ) (f : Fin n → DensityVals) : ℚ :=
  vInvBB nsig nbkg f / detVInv nsig nbkg f

/-- Entry (sig, bkg) of V, the inverse of the 2x2 matrix V^-1. -/
def vMatSB {n : ℕ} (nsig nbkg : ℚ) (f : Fin n → DensityVals) : ℚ :=
  -vInvSB nsig nbkg f / detVInv nsig nbkg f

/-- Entry (bkg, bkg) of V, the inverse of the 2x2 matrix V^-1. -/
def vMatBB {n : ℕ} (nsig nbkg : ℚ) (f : Fin n → DensityVals) : ℚ :=
  vInvSS nsig nbkg f / detVInv nsig nbkg f

/-- The signal sWeight of event e, the formula W_n(x) of 60sPlot.ipynb
with n = sig: (sum_j V_nj f_j(x_e)) / (sum_k N_k f_k(x_e)). -/
def sWeightSig {n : ℕ} (nsig nbkg : ℚ) (f : Fin n → DensityVals) (e : Fin n) : ℚ :=
  (vMatSS nsig nbkg f * (f e).fsig + vMatSB nsig nbkg f * (f e).fbkg) /
    totalPdf nsig nbkg (f e)

/-- The background sWeight of event e, the formula W_n(x) of
60sPlot.ipynb with n = bkg. -/
def sWeightBkg {n : ℕ} (nsig nbkg : ℚ) (f : Fin n → DensityVals) (e : Fin n) : ℚ :=
  (vMatSB nsig nbkg f * (f e).fsig + vMatBB nsig nbkg f * (f e).fbkg) /
    totalPdf nsig nbkg (f e)

lemma vinv_row_sig_dot_yields {n : ℕ} (nsig nbkg : ℚ) (f : Fin n → DensityVals) :
    vInvSS nsig nbkg f * nsig + vInvSB nsig nbkg f * nbkg =
      ∑ e, (f e).fsig / totalPdf nsig nbkg (f e) := by
  rw [vInvSS, vInvSB, Finset.sum_mul, Finset.sum_mul, ← Finset.sum_add_distrib]
  refine Finset.sum_congr rfl fun e _ => ?_
  set x := (f e).fsig
  set y := (f e).fbkg
  have ht : totalPdf nsig nbkg (f e) = nsig * x + nbkg * y := rfl
  rw [ht]
  rcases eq_or_ne (nsig * x + nbkg * y) 0 with h | h
  · rw [h]
    simp
  · field_simp
    ring

lemma vinv_row_bkg_dot_yields {n : ℕ} (nsig nbkg : ℚ) (f : Fin n → DensityVals) :
    vInvSB nsig nbkg f * nsig + vInvBB nsig nbkg f * nbkg =
      ∑ e, (f e).fbkg / totalPdf nsig nbkg (f e) := by
  rw [vInvSB, vInvBB, Finset.sum_mul, Finset.sum_mul, ← Finset.sum_add_distrib]
  refine Finset.sum_congr rfl fun e _ => ?_
  set x := (f e).fsig
  set y := (f e).fbkg
  have ht : totalPdf nsig nbkg (f e) = nsig * x + nbkg * y := rfl
  rw [ht]
  rcases eq_or_ne (nsig * x + nbkg * y) 0 with h | h
  · rw [h]
    simp
  · field_simp
    ring

lemma sum_sWeightSig_eq {n : ℕ} (nsig nbkg : ℚ) (f : Fin n → DensityVals) :
    ∑ e, sWeightSig nsig nbkg f e =
      vMatSS nsig nbkg f * (∑ e, (f e).fsig / totalPdf nsig nbkg (f e)) +
        vMatSB nsig nbkg f * (∑ e, (f e).fbkg / totalPdf nsig nbkg (f e)) := by
  rw [Finset.mul_sum, Finset.mul_sum, ← Finset.sum_add_distrib]
  refine Finset.sum_congr rfl fun e _ => ?_
  rw [sWeightSig, add_div, mul_div_assoc, mul_div_assoc]

lemma sum_sWeightBkg_eq {n : ℕ} (nsig nbkg : ℚ) (f : Fin n → DensityVals) :
    ∑ e, sWeightBkg nsig nbkg f e =
      vMatSB nsig nbkg f * (∑ e, (f e).fsig / totalPdf nsig nbkg (f e)) +
        vMatBB nsig nbkg f * (∑ e, (f e).fbkg / totalPdf nsig nbkg (f e)) := by
  rw [Finset.mul_sum, Finset.mul_sum, ← Finset.sum_add_distrib]
  refine Finset.sum_congr rfl fun e _ => ?_
  rw [sWeightBkg, add_div, mul_div_assoc, mul_div_assoc]

/-- C1: for a two-class sample whose densities and fitted yields satisfy
the extended maximum-likelihood stationarity conditions
(sum over events of f_sig/totalPdf = 1 and of f_bkg/totalPdf = 1, the
vanishing of the yield derivatives of the extended log-likelihood) and
whose second-moment matrix V^-1 is invertible, the sWeights
W_n(x_e) = (sum_j V_nj f_j(x_e)) / (sum_k N_k f_k(x_e)) of
60sPlot.ipynb satisfy sum_e W_sig(x_e) = N_sig and
sum_e W_bkg(x_e) = N_bkg exactly. -/
theorem sweights_sum_to_fitted_yields {n : ℕ} (nsig nbkg : ℚ)
    (f : Fin n → DensityVals)
    (hdet : detVInv nsig nbkg f ≠ 0)
    (hs : ∑ e, (f e).fsig / totalPdf nsig nbkg (f e) = 1)
    (hb : ∑ e, (f e).fbkg / totalPdf nsig nbkg (f e) = 1) :
    ∑ e, sWeightSig nsig nbkg f e = nsig ∧
      ∑ e, sWeightBkg nsig nbkg f e = nbkg := by
  have h1 : vInvSS nsig nbkg f * nsig + vInvSB nsig nbkg f * nbkg = 1 := by
    rw [vinv_row_sig_dot_yields, hs]
  have h2 : vInvSB nsig nbkg f * nsig + vInvBB nsig nbkg f * nbkg = 1 := by
    rw [vinv_row_bkg_dot_yields, hb]
  constructor
  · rw [sum_sWeightSig_eq, hs, hb, mul_one, mul_one, vMatSS, vMatSB,
      div_add_div_same, div_eq_iff hdet, detVInv]
    linear_combination vInvSB nsig nbkg f * h2 - vInvBB nsig nbkg f * h1
  · rw [sum_sWeightBkg_eq, hs, hb, mul_one, mul_one, vMatSB, vMatBB,
      div_add_div_same, div_eq_iff hdet, detVInv]
    linear_combination vInvSB nsig nbkg f * h1 - vInvSS nsig nbkg f * h2

/-- Concrete two-event sample used to witness the sWeight theorems. -/
def exDensities : Fin 2 → DensityVals := ![⟨1, 0⟩, ⟨0, 1⟩]

lemma exDensities_detVInv : detVInv 1 1 exDensities = 1 := by
  norm_num [detVInv, vInvSS, vInvSB, vInvBB, exDensities, totalPdf, Fin.sum_univ_two]

lemma exDensities_sig_ml : (∑ e, (exDensities e).fsig / totalPdf 1 1 (exDensities e)) = 1 := by
  norm_num [exDensities, totalPdf, Fin.sum_univ_two]

lemma exDensities_bkg_ml : (∑ e, (exDensities e).fbkg / totalPdf 1 1 (exDensities e)) = 1 := by
  norm_num [exDensities, totalPdf, Fin.sum_univ_two]

/-- Witness for C1 at a concrete two-event sample with unit yields. -/
theorem sweights_sum_to_fitted_yields_witness :
    detVInv 1 1 exDensities ≠ 0 ∧
      (∑ e, (exDensities e).fsig / totalPdf 1 1 (exDensities e)) = 1 ∧
      (∑ e, (exDensities e).fbkg / totalPdf 1 1 (exDensities e)) = 1 ∧
      (∑ e, sWeightSig 1 1 exDensities e = 1 ∧
        ∑ e, sWeightBkg 1 1 exDensities e = 1) :=
  ⟨by rw [exDensities_detVInv]; norm_num, exDensities_sig_ml, exDensities_bkg_ml,
    sweights_sum_to_fitted_yields 1 1 exDensities
      (by rw [exDensities_detVInv]; norm_num) exDensities_sig_ml exDensities_bkg_ml⟩

/-- Per-event class probabilities, the columns sig and bck of the probs
DataFrame built in 60sPlot.ipynb. -/
structure Probs where
  sig : ℚ
  bck : ℚ
deriving DecidableEq

/-- The second-moment sum V_ss = sum_x p_s(x) p_s(x) of 60sPlot.ipynb. -/
def Vss {n : ℕ} (p : Fin n → Probs) : ℚ := ∑ e, (p e).sig * (p e).sig

/-- The second-moment sum V_sb = sum_x p_s(x) p_b(x) of 60sPlot.ipynb. -/
def Vsb {n : ℕ} (p : Fin n → Probs) : ℚ := ∑ e, (p e).sig * (p e).bck

/-- The second-moment sum V_bs = sum_x p_b(x) p_s(x) of 60sPlot.ipynb
(stated there to equal V_sb). -/
def Vbs {n : ℕ} (p : Fin n → Probs) : ℚ := ∑ e, (p e).bck * (p e).sig

/-- The second-moment sum V_bb = sum_x p_b(x) p_b(x) of 60sPlot.ipynb. -/
def Vbb {n : ℕ} (p : Fin n → Probs) : ℚ := ∑ e, (p e).bck * (p e).bck

/-- Determinant of the 2x2 linear system of 60sPlot.ipynb with matrix
rows (V_bb, V_bs) and (V_sb, V_ss). -/
def detV {n : ℕ} (p : Fin n → Probs) : ℚ := Vbb p * Vss p - Vsb p ^ 2

/-- Coefficient a_1 solving the system a1 V_bb + a2 V_bs = 0,
a1 V_sb + a2 V_ss = N_sig of 60sPlot.ipynb, by Cramer's rule. -/
def coefA1 {n : ℕ} (nsig : ℚ) (p : Fin n → Probs) : ℚ :=
  -nsig * Vsb p / detV p

/-- Coefficient a_2 solving the system a1 V_bb + a2 V_bs = 0,
a1 V_sb + a2 V_ss = N_sig of 60sPlot.ipynb, by Cramer's rule. -/
def coefA2 {n : ℕ} (nsig : ℚ) (p : Fin n → Probs) : ℚ :=
  nsig * Vbb p / detV p

/-- The closed-form signal sWeight of 60sPlot.ipynb:
sw_s(x) = a_1 p_b(x) + a_2 p_s(x). -/
def wClosedSig {n : ℕ} (nsig : ℚ) (p : Fin n → Probs) (e : Fin n) : ℚ :=
  coefA1 nsig p * (p e).bck + coefA2 nsig p * (p e).sig

lemma sum_lin_mul_sig {n : ℕ} (a b : ℚ) (p : Fin n → Probs) :
    ∑ e, (a * (p e).bck + b * (p e).sig) * (p e).sig = a * Vsb p + b * Vss p := by
  rw [Vsb, Vss, Finset.mul_sum, Finset.mul_sum, ← Finset.sum_add_distrib]
  exact Finset.sum_congr rfl fun e _ => by ring

lemma sum_lin_mul_bck {n : ℕ} (a b : ℚ) (p : Fin n → Probs) :
    ∑ e, (a * (p e).bck + b * (p e).sig) * (p e).bck = a * Vbb p + b * Vsb p := by
  rw [Vbb, Vsb, Finset.mul_sum, Finset.mul_sum, ← Finset.sum_add_distrib]
  exact Finset.sum_congr rfl fun e _ => by ring

lemma wClosedSig_constraint_sig {n : ℕ} (nsig : ℚ) (p : Fin n → Probs)
    (hdet : detV p ≠ 0) : ∑ e, wClosedSig nsig p e * (p e).sig = nsig := by
  simp only [wClosedSig]
  rw [sum_lin_mul_sig, coefA1, coefA2, div_mul_eq_mul_div, div_mul_eq_mul_div,
    div_add_div_same, div_eq_iff hdet, detV]
  ring

lemma wClosedSig_constraint_bck {n : ℕ} (nsig : ℚ) (p : Fin n → Probs)
    (hdet : detV p ≠ 0) : ∑ e, wClosedSig nsig p e * (p e).bck = 0 := by
  simp only [wClosedSig]
  rw [sum_lin_mul_bck, coefA1, coefA2, div_mul_eq_mul_div, div_mul_eq_mul_div,
    div_add_div_same, div_eq_iff hdet]
  ring

/-- C2: the constrained optimization of 60sPlot.ipynb (minimize
sum_x sw_s(x)^2 subject to sum_x sw_s(x) p_s(x) = N_sig and
sum_x sw_s(x) p_b(x) = 0) is solved uniquely by the per-event linear
combination a_1 p_b(x) + a_2 p_s(x) whose coefficients solve the 2x2
linear system built from the second-moment sums V_ss, V_sb, V_bb:
the closed form satisfies both constraints, every other feasible weight
assignment has a strictly larger or equal sum of squares, and equality
of the objective forces equality of the weights. -/
theorem sweight_optimization_refinement {n : ℕ} (nsig : ℚ) (p : Fin n → Probs)
    (hdet : detV p ≠ 0) :
    (∑ e, wClosedSig nsig p e * (p e).sig = nsig) ∧
      (∑ e, wClosedSig nsig p e * (p e).bck = 0) ∧
      ∀ w : Fin n → ℚ, (∑ e, w e * (p e).sig = nsig) →
        (∑ e, w e * (p e).bck = 0) →
        (∑ e, wClosedSig nsig p e ^ 2 ≤ ∑ e, w e ^ 2) ∧
          (∑ e, w e ^ 2 = ∑ e, wClosedSig nsig p e ^ 2 → w = wClosedSig nsig p) := by
  refine ⟨wClosedSig_constraint_sig nsig p hdet, wClosedSig_constraint_bck nsig p hdet,
    fun w hw1 hw2 => ?_⟩
  have hsig0 : ∑ e, (w e - wClosedSig nsig p e) * (p e).sig = 0 := by
    have : ∑ e, (w e - wClosedSig nsig p e) * (p e).sig =
        (∑ e, w e * (p e).sig) - ∑ e, wClosedSig nsig p e * (p e).sig := by
      rw [← Finset.sum_sub_distrib]
      exact Finset.sum_congr rfl fun e _ => by ring
    rw [this, hw1, wClosedSig_constraint_sig nsig p hdet, sub_self]
  have hbck0 : ∑ e, (w e - wClosedSig nsig p e) * (p e).bck = 0 := by
    have : ∑ e, (w e - wClosedSig nsig p e) * (p e).bck =
        (∑ e, w e * (p e).bck) - ∑ e, wClosedSig nsig p e * (p e).bck := by
      rw [← Finset.sum_sub_distrib]
      exact Finset.sum_congr rfl fun e _ => by ring
    rw [this, hw2, wClosedSig_constraint_bck nsig p hdet, sub_self]
  have hcross : ∑ e, wClosedSig nsig p e * (w e - wClosedSig nsig p e) = 0 := by
    have hexp : ∑ e, wClosedSig nsig p e * (w e - wClosedSig nsig p e) =
        coefA1 nsig p * (∑ e, (w e - wClosedSig nsig p e) * (p e).bck) +
          coefA2 nsig p * (∑ e, (w e - wClosedSig nsig p e) * (p e).sig) := by
      rw [Finset.mul_sum, Finset.mul_sum, ← Finset.sum_add_distrib]
      exact Finset.sum_congr rfl fun e _ => by rw [wClosedSig]; ring
    rw [hexp, hsig0, hbck0, mul_zero, mul_zero, add_zero]
  have hdecomp : ∑ e, w e ^ 2 =
      (∑ e, wClosedSig nsig p e ^ 2) + ∑ e, (w e - wClosedSig nsig p e) ^ 2 := by
    have hpt : ∀ e : Fin n, w e ^ 2 =
        (wClosedSig nsig p e ^ 2 + (w e - wClosedSig nsig p e) ^ 2) +
          2 * (wClosedSig nsig p e * (w e - wClosedSig nsig p e)) := fun e => by ring
    calc ∑ e, w e ^ 2
        = ∑ e, ((wClosedSig nsig p e ^ 2 + (w e - wClosedSig nsig p e) ^ 2) +
            2 * (wClosedSig nsig p e * (w e - wClosedSig nsig p e))) :=
          Finset.sum_congr rfl fun e _ => hpt e
      _ = (∑ e, (wClosedSig nsig p e ^ 2 + (w e - wClosedSig nsig p e) ^ 2)) +
            2 * ∑ e, wClosedSig nsig p e * (w e - wClosedSig nsig p e) := by
          rw [Finset.sum_add_distrib, Finset.mul_sum]
      _ = (∑ e, wClosedSig nsig p e ^ 2) + ∑ e, (w e - wClosedSig nsig p e) ^ 2 := by
          rw [hcross, mul_zero, add_zero, Finset.sum_add_distrib]
  constructor
  · rw [hdecomp]
    exact le_add_of_nonneg_right (Finset.sum_nonneg fun e _ => sq_nonneg _)
  · intro heq
    have hzero : ∑ e, (w e - wClosedSig nsig p e) ^ 2 = 0 := by
      have := hdecomp.symm.trans heq
      linarith
    funext e
    have := (Finset.sum_eq_zero_iff_of_nonneg fun e _ => sq_nonneg
      (w e - wClosedSig nsig p e)).mp hzero e (Finset.mem_univ e)
    exact sub_eq_zero.mp (sq_eq_zero_iff.mp this)

/-- Concrete three-event probability sample used as witness input. -/
def exProbs : Fin 3 → Probs := ![⟨1, 0⟩, ⟨0, 1⟩, ⟨1, 1⟩]

/-- Concrete competing weight assignment feasible for the constraints. -/
def exW : Fin 3 → ℚ := ![1, 0, 0]

lemma exProbs_detV : detV exProbs = 3 := by
  norm_num [detV, Vss, Vsb, Vbb, exProbs, Fin.sum_univ_three]

lemma exW_constraint_sig : ∑ e, exW e * (exProbs e).sig = 1 := by
  norm_num [exW, exProbs, Fin.sum_univ_three]

lemma exW_constraint_bck : ∑ e, exW e * (exProbs e).bck = 0 := by
  norm_num [exW, exProbs, Fin.sum_univ_three]

/-- Witness for C2 at a concrete three-event sample and a concrete
feasible competitor. -/
theorem sweight_optimization_refinement_witness :
    detV exProbs ≠ 0 ∧
      (∑ e, exW e * (exProbs e).sig = 1) ∧
      (∑ e, exW e * (exProbs e).bck = 0) ∧
      ∑ e, wClosedSig 1 exProbs e ^ 2 ≤ ∑ e, exW e ^ 2 :=
  ⟨by rw [exProbs_detV]; norm_num, exW_constraint_sig, exW_constraint_bck,
    ((sweight_optimization_refinement 1 exProbs
        (by rw [exProbs_detV]; norm_num)).2.2 exW
      exW_constraint_sig exW_constraint_bck).1⟩

/-- Linear dependence of the two per-class probability (or density)
vectors across the fitted sample. -/
def LinDepProbs {n : ℕ} (p : Fin n → Probs) : Prop :=
  ∃ a b : ℚ, (a ≠ 0 ∨ b ≠ 0) ∧ ∀ e, a * (p e).sig + b * (p e).bck = 0

/-- The sWeight closed-form computation of 60sPlot.ipynb as a fallible
function: solving the 2x2 linear system fails with a singular-matrix
error exactly when its determinant vanishes, and otherwise every step
(the second-moment sums, Cramer's rule, the per-event linear
combination) is total. -/
def computeSweightsSig {n : ℕ} (nsig : ℚ) (p : Fin n → Probs) :
    Option (Fin n → ℚ) :=
  if detV p = 0 then none else some (wClosedSig nsig p)

lemma detV_eq_zero_of_dep {n : ℕ} (p : Fin n → Probs) (h : LinDepProbs p) :
    detV p = 0 := by
  obtain ⟨a, b, hne, hlin⟩ := h
  rcases hne with ha | hb
  · have hsig : ∀ e, (p e).sig = -(b / a) * (p e).bck := by
      intro e
      have h := hlin e
      field_simp
      linear_combination h
    have hVss : Vss p = (b / a) ^ 2 * Vbb p := by
      rw [Vss, Vbb, Finset.mul_sum]
      exact Finset.sum_congr rfl fun e _ => by rw [hsig e]; ring
    have hVsb : Vsb p = -(b / a) * Vbb p := by
      rw [Vsb, Vbb, Finset.mul_sum]
      exact Finset.sum_congr rfl fun e _ => by rw [hsig e]; ring
    rw [detV, hVss, hVsb]
    ring
  · have hbck : ∀ e, (p e).bck = -(a / b) * (p e).sig := by
      intro e
      have h := hlin e
      field_simp
      linear_combination h
    have hVbb : Vbb p = (a / b) ^ 2 * Vss p := by
      rw [Vbb, Vss, Finset.mul_sum]
      exact Finset.sum_congr rfl fun e _ => by rw [hbck e]; ring
    have hVsb : Vsb p = -(a / b) * Vss p := by
      rw [Vsb, Vss, Finset.mul_sum]
      exact Finset.sum_congr rfl fun e _ => by rw [hbck e]; ring
    rw [detV, hVbb, hVsb]
    ring

lemma dep_of_detV_eq_zero {n : ℕ} (p : Fin n → Probs) (h : detV p = 0) :
    LinDepProbs p := by
  by_cases hb : ∀ e, (p e).bck = 0
  · exact ⟨0, 1, Or.inr one_ne_zero, fun e => by rw [hb e]; ring⟩
  · push_neg at hb
    obtain ⟨e0, he0⟩ := hb
    have hVbbpos : 0 < Vbb p := by
      have h1 : (p e0).bck * (p e0).bck ≤ Vbb p :=
        Finset.single_le_sum (f := fun e => (p e).bck * (p e).bck)
          (fun i _ => mul_self_nonneg _) (Finset.mem_univ e0)
      have h2 : 0 < (p e0).bck * (p e0).bck := mul_self_pos.mpr he0
      linarith
    have hVbbne : Vbb p ≠ 0 := ne_of_gt hVbbpos
    have hkey : ∑ e, ((p e).sig - Vsb p / Vbb p * (p e).bck) ^ 2 = 0 := by
      have hpt : ∀ e : Fin n, ((p e).sig - Vsb p / Vbb p * (p e).bck) ^ 2 =
          (p e).sig * (p e).sig -
            2 * (Vsb p / Vbb p) * ((p e).sig * (p e).bck) +
            (Vsb p / Vbb p) ^ 2 * ((p e).bck * (p e).bck) := fun e => by ring
      rw [Finset.sum_congr rfl fun e _ => hpt e]
      rw [Finset.sum_add_distrib, Finset.sum_sub_distrib, ← Finset.mul_sum,
        ← Finset.mul_sum, ← Vss, ← Vsb, ← Vbb]
      rw [detV] at h
      have hv : Vss p * Vbb p - Vsb p ^ 2 = 0 := by linear_combination h
      have hgoal : Vss p - 2 * (Vsb p / Vbb p) * Vsb p +
          (Vsb p / Vbb p) ^ 2 * Vbb p = (Vss p * Vbb p - Vsb p ^ 2) / Vbb p := by
        field_simp
        ring
      rw [hgoal, hv, zero_div]
    have hterm := (Finset.sum_eq_zero_iff_of_nonneg fun e _ =>
      sq_nonneg ((p e).sig - Vsb p / Vbb p * (p e).bck)).mp hkey
    refine ⟨1, -(Vsb p / Vbb p), Or.inl one_ne_zero, fun e => ?_⟩
    have h0 := sq_eq_zero_iff.mp (hterm e (Finset.mem_univ e))
    have := sub_eq_zero.mp h0
    rw [one_mul]
    linear_combination this

/-- C3: the 2x2 second-moment matrix of the sWeight computation in
60sPlot.ipynb is invertible (nonzero determinant) precisely when the
per-class probability vectors across the fitted sample are linearly
independent, and the fallible closed-form computation succeeds
precisely in that case: it fails (returns no result, the
singular-matrix error) exactly on linearly dependent inputs and has no
other failure mode. -/
theorem gram_singular_iff_dependent {n : ℕ} (nsig : ℚ) (p : Fin n → Probs) :
    (detV p ≠ 0 ↔ ¬LinDepProbs p) ∧
      ((computeSweightsSig nsig p).isSome = true ↔ ¬LinDepProbs p) ∧
      (computeSweightsSig nsig p = none ↔ LinDepProbs p) := by
  have hiff : detV p = 0 ↔ LinDepProbs p :=
    ⟨dep_of_detV_eq_zero p, detV_eq_zero_of_dep p⟩
  refine ⟨not_congr hiff, ?_, ?_⟩
  · by_cases h : detV p = 0
    · simp [computeSweightsSig, h, hiff.mp h]
    · simp [computeSweightsSig, h, (not_congr hiff).mp h]
  · by_cases h : detV p = 0
    · simp [computeSweightsSig, h, hiff.mp h]
    · simp [computeSweightsSig, h, (not_congr hiff).mp h]

/-- The (classes x classes) second-moment Gram matrix of the sWeight
linear system, with entries the sums over events of products of the
per-class probability values, as defined in 60sPlot.ipynb. -/
def gramMatrix {n : ℕ} (p : Fin n → Probs) : Matrix (Fin 2) (Fin 2) ℚ :=
  !![Vss p, Vsb p; Vbs p, Vbb p]

lemma Vsb_eq_Vbs {n : ℕ} (p : Fin n → Probs) : Vsb p = Vbs p :=
  Finset.sum_congr rfl fun e _ => mul_comm _ _

lemma quadForm_as_sum {n : ℕ} (p : Fin n → Probs) (v : Fin 2 → ℚ) :
    Matrix.dotProduct v ((gramMatrix p).mulVec v) =
      ∑ e, (v 0 * (p e).sig + v 1 * (p e).bck) ^ 2 := by
  have hexp : Matrix.dotProduct v ((gramMatrix p).mulVec v) =
      v 0 * (Vss p * v 0 + Vsb p * v 1) + v 1 * (Vbs p * v 0 + Vbb p * v 1) := by
    simp [gramMatrix, Matrix.mulVec, Matrix.dotProduct, Fin.sum_univ_two, mul_comm]
  rw [hexp, Vss, Vsb, Vbs, Vbb, mul_add, mul_add, Finset.sum_mul, Finset.sum_mul,
    Finset.sum_mul, Finset.sum_mul, Finset.mul_sum, Finset.mul_sum, Finset.mul_sum,
    Finset.mul_sum, ← Finset.sum_add_distrib, ← Finset.sum_add_distrib,
    ← Finset.sum_add_distrib]
  exact Finset.sum_congr rfl fun e _ => by ring

/-- C5: when the per-class probability vectors across the fitted sample
are linearly independent, the second-moment Gram matrix of the sWeight
linear system is symmetric and positive semi-definite. -/
theorem gram_symmetric_psd {n : ℕ} (p : Fin n → Probs)
    (hind : ¬LinDepProbs p) :
    (gramMatrix p).transpose = gramMatrix p ∧
      ∀ v : Fin 2 → ℚ, 0 ≤ Matrix.dotProduct v ((gramMatrix p).mulVec v) := by
  constructor
  · ext i j
    fin_cases i <;> fin_cases j <;>
      simp [gramMatrix, Matrix.transpose_apply, Vsb_eq_Vbs p]
  · intro v
    rw [quadForm_as_sum]
    exact Finset.sum_nonneg fun e _ => sq_nonneg _

lemma exProbs_indep : ¬LinDepProbs exProbs := by
  rintro ⟨a, b, hne, hlin⟩
  have h0 := hlin 0
  have h1 := hlin 1
  simp [exProbs] at h0 h1
  rcases hne with h | h <;> exact h (by assumption)

/-- Witness for C5 at a concrete linearly independent sample and a
concrete direction vector. -/
theorem gram_symmetric_psd_witness :
    ¬LinDepProbs exProbs ∧
      ((gramMatrix exProbs).transpose = gramMatrix exProbs ∧
        0 ≤ Matrix.dotProduct ![1, -1] ((gramMatrix exProbs).mulVec ![1, -1])) :=
  ⟨exProbs_indep,
    (gram_symmetric_psd exProbs exProbs_indep).1,
    (gram_symmetric_psd exProbs exProbs_indep).2 ![1, -1]⟩

/-- The per-event normalization cell of 60sPlot.ipynb,
probs = probs.div(probs.sum(axis=1), axis=0): each class density value
of a row is divided by the row sum of the two density values. -/
def normalizeEvent (d : DensityVals) : Probs :=
  ⟨d.fsig / (d.fsig + d.fbkg), d.fbkg / (d.fsig + d.fbkg)⟩

/-- The normalized per-event probabilities that the notebook passes to
splot.compute_sweights. -/
def pipelineInput {n : ℕ} (f : Fin n → DensityVals) : Fin n → Probs :=
  fun e => normalizeEvent (f e)

/-- Coefficient b_1 of the background analogue of the 2x2 system of
60sPlot.ipynb (constraints sum sw_b p_s = 0 and sum sw_b p_b = N_bkg),
by Cramer's rule. -/
def coefB1 {n : ℕ} (nbck : ℚ) (p : Fin n → Probs) : ℚ :=
  -nbck * Vsb p / detV p

/-- Coefficient b_2 of the background analogue of the 2x2 system of
60sPlot.ipynb, by Cramer's rule. -/
def coefB2 {n : ℕ} (nbck : ℚ) (p : Fin n → Probs) : ℚ :=
  nbck * Vss p / detV p

/-- The closed-form background sWeight, sw_b(x) = b_1 p_s(x) + b_2 p_b(x). -/
def wClosedBck {n : ℕ} (nbck : ℚ) (p : Fin n → Probs) (e : Fin n) : ℚ :=
  coefB1 nbck p * (p e).sig + coefB2 nbck p * (p e).bck

/-- The sWeight computation on per-event probabilities, as 60sPlot.ipynb
describes splot.compute_sweights: the class yields are the column sums
of the probabilities, the 2x2 second-moment system is solved for each
class, failing when it is singular, and the resulting linear combination
is applied to each event. -/
def computeSweightsPair {n : ℕ} (p : Fin n → Probs) :
    Option ((Fin n → ℚ) × (Fin n → ℚ)) :=
  if detV p = 0 then none
  else some (wClosedSig (∑ e, (p e).sig) p, wClosedBck (∑ e, (p e).bck) p)

/-- The notebook's full sWeight pipeline: normalize the per-event
density values row by row, then run the sWeight computation on the
normalized probabilities. -/
def splotPipeline {n : ℕ} (f : Fin n → DensityVals) :
    Option ((Fin n → ℚ) × (Fin n → ℚ)) :=
  computeSweightsPair (pipelineInput f)

lemma normalizeEvent_scale (c : ℚ) (hc : c ≠ 0) (d : DensityVals) :
    normalizeEvent ⟨c * d.fsig, c * d.fbkg⟩ = normalizeEvent d := by
  rw [normalizeEvent, normalizeEvent]
  have h : c * d.fsig + c * d.fbkg = c * (d.fsig + d.fbkg) := by ring
  rw [h, mul_div_mul_left _ _ hc, mul_div_mul_left _ _ hc]

/-- C4: replacing one event's pair of input density values by the pair
scaled with a positive constant c leaves the normalized probabilities
of every event, and hence every computed sWeight of every event and
class, unchanged. -/
theorem sweights_scale_invariant {n : ℕ} (f : Fin n → DensityVals)
    (i : Fin n) (c : ℚ) (hc : 0 < c) :
    pipelineInput
        (Function.update f i ⟨c * (f i).fsig, c * (f i).fbkg⟩) =
      pipelineInput f ∧
    splotPipeline
        (Function.update f i ⟨c * (f i).fsig, c * (f i).fbkg⟩) =
      splotPipeline f := by
  have hinput : pipelineInput
      (Function.update f i ⟨c * (f i).fsig, c * (f i).fbkg⟩) =
      pipelineInput f := by
    funext e
    by_cases he : e = i
    · subst he
      rw [pipelineInput, pipelineInput, Function.update_same]
      exact normalizeEvent_scale c (ne_of_gt hc) (f e)
    · rw [pipelineInput, pipelineInput, Function.update_noteq he]
  exact ⟨hinput, by rw [splotPipeline, splotPipeline, hinput]⟩

/-- Witness for C4: scaling the first event of the concrete sample by
two changes neither the normalized probabilities nor the pipeline
output. -/
theorem sweights_scale_invariant_witness :
    (0 : ℚ) < 2 ∧
      (pipelineInput (Function.update exDensities 0
          ⟨2 * (exDensities 0).fsig, 2 * (exDensities 0).fbkg⟩) =
        pipelineInput exDensities ∧
      splotPipeline (Function.update exDensities 0
          ⟨2 * (exDensities 0).fsig, 2 * (exDensities 0).fbkg⟩) =
        splotPipeline exDensities) :=
  ⟨by norm_num, sweights_scale_invariant exDensities 0 2 (by norm_num)⟩

/-- C9: after the notebook's own normalization cell, every event whose
two density values have nonzero sum carries per-class probabilities
summing exactly to one; pipelineInput is, definitionally, the input the
pipeline hands to the sWeight computation. -/
theorem normalized_probs_sum_to_one {n : ℕ} (f : Fin n → DensityVals)
    (e : Fin n) (h : (f e).fsig + (f e).fbkg ≠ 0) :
    ((pipelineInput f e).sig + (pipelineInput f e).bck = 1) ∧
      splotPipeline f = computeSweightsPair (pipelineInput f) := by
  refine ⟨?_, rfl⟩
  rw [pipelineInput, normalizeEvent, div_add_div_same, div_self h]

/-- Witness for C9 at the first event of the concrete sample. -/
theorem normalized_probs_sum_to_one_witness :
    ((exDensities 0).fsig + (exDensities 0).fbkg ≠ 0) ∧
      ((pipelineInput exDensities 0).sig +
          (pipelineInput exDensities 0).bck = 1) :=
  ⟨by norm_num [exDensities], (normalized_probs_sum_to_one exDensities 0
    (by norm_num [exDensities])).1⟩

/-- A full event row of the notebook data: the two density values of
the discriminating variable and the reconstructed variable. -/
structure EventRow where
  fsig : ℚ
  fbkg : ℚ
  recon : ℚ
deriving DecidableEq

/-- Projection of a row to the density values that the sWeight pipeline
actually consumes. -/
def densityPart (r : EventRow) : DensityVals :=
  ⟨r.fsig, r.fbkg⟩

/-- The sWeight pipeline on full rows: only the density columns are
passed on; the reconstructed variable is never read. -/
def splotPipelineRows {n : ℕ} (rows : Fin n → EventRow) :
    Option ((Fin n → ℚ) × (Fin n → ℚ)) :=
  splotPipeline (fun e => densityPart (rows e))

/-- C6: the sWeight computation takes only the density values (and the
yields derived from them) as input.  Any two datasets agreeing on the
density columns, however their reconstructed variables differ and
however statistically dependent those are on the discriminating
variable, produce identical weights, identical success or failure, and
no error is raised when the system is nonsingular: the independence
precondition is never checked. -/
theorem sweights_ignore_reconstructed {n : ℕ} (rows1 rows2 : Fin n → EventRow)
    (h : ∀ e, (rows1 e).fsig = (rows2 e).fsig ∧ (rows1 e).fbkg = (rows2 e).fbkg) :
    splotPipelineRows rows1 = splotPipelineRows rows2 ∧
      ((splotPipelineRows rows1).isSome = true ↔
        (splotPipelineRows rows2).isSome = true) ∧
      (detV (pipelineInput (fun e => densityPart (rows1 e))) ≠ 0 →
        (splotPipelineRows rows1).isSome = true) := by
  have hdens : (fun e => densityPart (rows1 e)) = fun e => densityPart (rows2 e) := by
    funext e
    rw [densityPart, densityPart, (h e).1, (h e).2]
  have heq : splotPipelineRows rows1 = splotPipelineRows rows2 := by
    rw [splotPipelineRows, splotPipelineRows, hdens]
  refine ⟨heq, by rw [heq], fun hdet => ?_⟩
  rw [splotPipelineRows, splotPipeline, computeSweightsPair, if_neg hdet]
  rfl

/-- Concrete rows: densities of the two-event sample with one choice of
reconstructed variable. -/
def exRows1 : Fin 2 → EventRow := ![⟨1, 0, 5⟩, ⟨0, 1, 7⟩]

/-- Concrete rows: same densities, entirely different reconstructed
variable. -/
def exRows2 : Fin 2 → EventRow := ![⟨1, 0, 100⟩, ⟨0, 1, -3⟩]

lemma exRows_agree : ∀ e, (exRows1 e).fsig = (exRows2 e).fsig ∧
    (exRows1 e).fbkg = (exRows2 e).fbkg := by
  intro e
  fin_cases e <;> simp [exRows1, exRows2]

lemma exRows1_detV :
    detV (pipelineInput (fun e => densityPart (exRows1 e))) = 1 := by
  norm_num [detV, Vss, Vsb, Vbb, pipelineInput, normalizeEvent, densityPart,
    exRows1, Fin.sum_univ_two]

/-- Witness for C6: the two concrete datasets differ only in the
reconstructed variable, give equal pipeline output, and succeed. -/
theorem sweights_ignore_reconstructed_witness :
    (∀ e, (exRows1 e).fsig = (exRows2 e).fsig ∧
        (exRows1 e).fbkg = (exRows2 e).fbkg) ∧
      splotPipelineRows exRows1 = splotPipelineRows exRows2 ∧
      (splotPipelineRows exRows1).isSome = true :=
  ⟨exRows_agree,
    (sweights_ignore_reconstructed exRows1 exRows2 exRows_agree).1,
    (sweights_ignore_reconstructed exRows1 exRows2 exRows_agree).2.2
      (by rw [exRows1_detV]; norm_num)⟩

/-- The GitHub event kinds that trigger the Build webpage workflow. -/
inductive GhEvent where
  | push
  | pull_request
deriving DecidableEq

/-- The run context of the Build webpage workflow: triggering event,
repository slug, git ref and the workflow token secret. -/
structure GhCtx where
  eventName : GhEvent
  repository : String
  ref : String
  token : String
deriving DecidableEq

/-- A shell command of a workflow step: either an environment-variable
export or the invocation of a tool. -/
inductive Cmd where
  | exportVar (name value : String)
  | invoke (line : String)
deriving DecidableEq

/-- The shell parameter expansion in the deploy script that strips the
refs/heads/ lead of the git ref. -/
def branchOf (r : String) : String :=
  if r.startsWith "refs/heads/" then r.drop 11 else r

/-- The if-condition of the Deploy webpage step in the workflow file. -/
def deployCond (ctx : GhCtx) : Bool :=
  decide (ctx.eventName = GhEvent.push) &&
    decide (ctx.repository = "hsf-training/analysis-essentials") &&
    decide (ctx.ref = "refs/heads/master")

/-- The if-condition of the build-pages job in the workflow file. -/
def jobCond (ctx : GhCtx) : Bool :=
  decide (ctx.eventName = GhEvent.pull_request) ||
    decide (ctx.repository = "hsf-training/analysis-essentials")

/-- One step of a GitHub Actions job: an if-condition and the commands
its script runs in order. -/
structure Step where
  condRun : GhCtx → Bool
  cmds : GhCtx → List Cmd

/-- The run script of the Deploy webpage step: three exports followed by
the starterkit_ci deploy invocation. -/
def deployScript (ctx : GhCtx) : List Cmd :=
  [Cmd.exportVar "TRAVIS_BRANCH" (branchOf ctx.ref),
   Cmd.exportVar "TRAVIS_REPO_SLUG" ctx.repository,
   Cmd.exportVar "INPUT_GITHUB_TOKEN" ctx.token,
   Cmd.invoke "starterkit_ci deploy"]

/-- The steps of the build-pages job, in workflow order. -/
def buildPagesSteps : List Step :=
  [⟨fun _ => true, fun _ => [Cmd.invoke "actions/checkout@v4"]⟩,
   ⟨fun _ => true, fun _ => [Cmd.invoke "conda-incubator/setup-miniconda@v2"]⟩,
   ⟨fun _ => true, fun _ => [Cmd.invoke "pip install git+https://github.com/lhcb/starterkit-ci.git@cburr-gh-actions"]⟩,
   ⟨fun _ => true, fun _ => [Cmd.invoke "starterkit_ci build"]⟩,
   ⟨deployCond, deployScript⟩]

/-- Success of a command: exports always succeed, an invocation succeeds
when its exit status (given by the outcome assignment) is zero. -/
def cmdOk (outcome : String → Bool) : Cmd → Bool
  | Cmd.exportVar _ _ => true
  | Cmd.invoke line => outcome line

/-- Run a step script: commands execute in order and the script stops at
the first failing command; returns the executed commands and success. -/
def runScript (outcome : String → Bool) : List Cmd → List Cmd × Bool
  | [] => ([], true)
  | c :: rest =>
    if cmdOk outcome c then
      let r := runScript outcome rest
      (c :: r.1, r.2)
    else ([c], false)

/-- Run the steps of a job in order: a step executes when its
if-condition holds; a failed script fails the job and skips every later
step; returns all executed commands in order and job success. -/
def runSteps (ctx : GhCtx) (outcome : String → Bool) :
    List Step → List Cmd × Bool
  | [] => ([], true)
  | s :: rest =>
    if s.condRun ctx then
      let r := runScript outcome (s.cmds ctx)
      if r.2 then
        let r2 := runSteps ctx outcome rest
        (r.1 ++ r2.1, r2.2)
      else (r.1, false)
    else runSteps ctx outcome rest

/-- A full run of the Build webpage workflow job, gated on the job-level
if-condition. -/
def runJob (ctx : GhCtx) (outcome : String → Bool) : List Cmd × Bool :=
  if jobCond ctx then runSteps ctx outcome buildPagesSteps else ([], true)

/-- C7: the Deploy webpage step executes only when the triggering event
is a push, the repository is hsf-training/analysis-essentials and the
ref is refs/heads/master — in particular never in a pull_request run —
and when it executes, the INPUT_GITHUB_TOKEN and TRAVIS_REPO_SLUG
environment variables are exported before starterkit_ci deploy is
invoked. -/
theorem deploy_gated (ctx : GhCtx) (outcome : String → Bool) :
    (Cmd.invoke "starterkit_ci deploy" ∈ (runJob ctx outcome).1 →
      (ctx.eventName = GhEvent.push ∧
        ctx.repository = "hsf-training/analysis-essentials" ∧
        ctx.ref = "refs/heads/master") ∧
      ∃ pre post,
        (runJob ctx outcome).1 =
          pre ++ Cmd.invoke "starterkit_ci deploy" :: post ∧
        Cmd.exportVar "INPUT_GITHUB_TOKEN" ctx.token ∈ pre ∧
        Cmd.exportVar "TRAVIS_REPO_SLUG" ctx.repository ∈ pre) ∧
    (ctx.eventName = GhEvent.pull_request →
      Cmd.invoke "starterkit_ci deploy" ∉ (runJob ctx outcome).1) := by
  have hmain : Cmd.invoke "starterkit_ci deploy" ∈ (runJob ctx outcome).1 →
      (ctx.eventName = GhEvent.push ∧
        ctx.repository = "hsf-training/analysis-essentials" ∧
        ctx.ref = "refs/heads/master") ∧
      ∃ pre post,
        (runJob ctx outcome).1 =
          pre ++ Cmd.invoke "starterkit_ci deploy" :: post ∧
        Cmd.exportVar "INPUT_GITHUB_TOKEN" ctx.token ∈ pre ∧
        Cmd.exportVar "TRAVIS_REPO_SLUG" ctx.repository ∈ pre := by
    intro hmem
    by_cases hjob : jobCond ctx = true
    · rw [runJob, if_pos hjob] at hmem ⊢
      cases h5 : deployCond ctx with
      | false =>
        exfalso
        cases h1 : outcome "actions/checkout@v4" <;>
          cases h2 : outcome "conda-incubator/setup-miniconda@v2" <;>
          cases h3 : outcome "pip install git+https://github.com/lhcb/starterkit-ci.git@cburr-gh-actions" <;>
          cases h4 : outcome "starterkit_ci build" <;>
          simp [buildPagesSteps, runSteps, runScript, cmdOk, h1, h2, h3, h4, h5] at hmem
      | true =>
        have hconds : ctx.eventName = GhEvent.push ∧
            ctx.repository = "hsf-training/analysis-essentials" ∧
            ctx.ref = "refs/heads/master" := by
          rw [deployCond, Bool.and_eq_true, Bool.and_eq_true] at h5
          exact ⟨of_decide_eq_true h5.1.1, of_decide_eq_true h5.1.2,
            of_decide_eq_true h5.2⟩
        refine ⟨hconds, ?_⟩
        cases h1 : outcome "actions/checkout@v4" <;>
          cases h2 : outcome "conda-incubator/setup-miniconda@v2" <;>
          cases h3 : outcome "pip install git+https://github.com/lhcb/starterkit-ci.git@cburr-gh-actions" <;>
          cases h4 : outcome "starterkit_ci build" <;>
          cases h6 : outcome "starterkit_ci deploy" <;>
        first
        | (exfalso
           simp [buildPagesSteps, runSteps, runScript, cmdOk, deployScript,
             h1, h2, h3, h4, h5, h6] at hmem
           done)
        | (have htr : (runSteps ctx outcome buildPagesSteps).1 =
              [Cmd.invoke "actions/checkout@v4",
               Cmd.invoke "conda-incubator/setup-miniconda@v2",
               Cmd.invoke "pip install git+https://github.com/lhcb/starterkit-ci.git@cburr-gh-actions",
               Cmd.invoke "starterkit_ci build",
               Cmd.exportVar "TRAVIS_BRANCH" (branchOf ctx.ref),
               Cmd.exportVar "TRAVIS_REPO_SLUG" ctx.repository,
               Cmd.exportVar "INPUT_GITHUB_TOKEN" ctx.token,
               Cmd.invoke "starterkit_ci deploy"] := by
             simp [buildPagesSteps, runSteps, runScript, cmdOk, deployScript,
               h1, h2, h3, h4, h5, h6]
           rw [htr]
           refine ⟨[Cmd.invoke "actions/checkout@v4",
             Cmd.invoke "conda-incubator/setup-miniconda@v2",
             Cmd.invoke "pip install git+https://github.com/lhcb/starterkit-ci.git@cburr-gh-actions",
             Cmd.invoke "starterkit_ci build",
             Cmd.exportVar "TRAVIS_BRANCH" (branchOf ctx.ref),
             Cmd.exportVar "TRAVIS_REPO_SLUG" ctx.repository,
             Cmd.exportVar "INPUT_GITHUB_TOKEN" ctx.token], [], rfl, ?_, ?_⟩ <;>
           simp)
    · rw [runJob, if_neg hjob] at hmem
      simp at hmem
  refine ⟨hmain, fun hpr hmem => ?_⟩
  have := (hmain hmem).1.1
  rw [hpr] at this
  exact GhEvent.noConfusion this

/-- C8: in any run of the Build webpage workflow the build command and
the deploy command are each invoked at most once; a failing
starterkit_ci build or starterkit_ci deploy invocation fails the job
and is the last command run, so no retry or recovery step executes
after the failure. -/
theorem build_deploy_once_fail_stops (ctx : GhCtx) (outcome : String → Bool) :
    ((runJob ctx outcome).1.count (Cmd.invoke "starterkit_ci build") ≤ 1 ∧
      (runJob ctx outcome).1.count (Cmd.invoke "starterkit_ci deploy") ≤ 1) ∧
    (Cmd.invoke "starterkit_ci build" ∈ (runJob ctx outcome).1 →
      outcome "starterkit_ci build" = false →
      (runJob ctx outcome).2 = false ∧
        (runJob ctx outcome).1.getLast? =
          some (Cmd.invoke "starterkit_ci build")) ∧
    (Cmd.invoke "starterkit_ci deploy" ∈ (runJob ctx outcome).1 →
      outcome "starterkit_ci deploy" = false →
      (runJob ctx outcome).2 = false ∧
        (runJob ctx outcome).1.getLast? =
          some (Cmd.invoke "starterkit_ci deploy")) := by
  by_cases hjob : jobCond ctx = true
  · rw [runJob, if_pos hjob]
    cases h1 : outcome "actions/checkout@v4" <;>
      cases h2 : outcome "conda-incubator/setup-miniconda@v2" <;>
      cases h3 : outcome "pip install git+https://github.com/lhcb/starterkit-ci.git@cburr-gh-actions" <;>
      cases h4 : outcome "starterkit_ci build" <;>
      cases h5 : deployCond ctx <;>
      cases h6 : outcome "starterkit_ci deploy" <;>
      simp [buildPagesSteps, runSteps, runScript, cmdOk, deployScript,
        h1, h2, h3, h4, h5, h6, List.count_cons]
  · rw [runJob, if_neg hjob]
    simp

/-- Concrete workflow context: a push to master of the upstream
repository. -/
def exCtx : GhCtx :=
  ⟨GhEvent.push, "hsf-training/analysis-essentials", "refs/heads/master", "tok"⟩

/-- Outcome assignment in which every invocation exits with status
zero. -/
def exOutcome : String → Bool := fun _ => true

/-- Outcome assignment in which exactly the build invocation fails. -/
def exOutcomeBuildFail : String → Bool := fun s => !(s == "starterkit_ci build")

lemma exCtx_deploy_mem :
    Cmd.invoke "starterkit_ci deploy" ∈ (runJob exCtx exOutcome).1 := by
  simp [runJob, jobCond, deployCond, exCtx, exOutcome, buildPagesSteps,
    runSteps, runScript, cmdOk, deployScript]

/-- Witness for C7: on a push to master of the upstream repository with
all commands succeeding, the deploy command is invoked and the gating
theorem applies. -/
theorem deploy_gated_witness :
    Cmd.invoke "starterkit_ci deploy" ∈ (runJob exCtx exOutcome).1 ∧
      ((exCtx.eventName = GhEvent.push ∧
        exCtx.repository = "hsf-training/analysis-essentials" ∧
        exCtx.ref = "refs/heads/master") ∧
      ∃ pre post,
        (runJob exCtx exOutcome).1 =
          pre ++ Cmd.invoke "starterkit_ci deploy" :: post ∧
        Cmd.exportVar "INPUT_GITHUB_TOKEN" exCtx.token ∈ pre ∧
        Cmd.exportVar "TRAVIS_REPO_SLUG" exCtx.repository ∈ pre) :=
  ⟨exCtx_deploy_mem, (deploy_gated exCtx exOutcome).1 exCtx_deploy_mem⟩

lemma exCtx_build_fail_mem :
    Cmd.invoke "starterkit_ci build" ∈ (runJob exCtx exOutcomeBuildFail).1 := by
  simp [runJob, jobCond, deployCond, exCtx, exOutcomeBuildFail,
    buildPagesSteps, runSteps, runScript, cmdOk, deployScript]

lemma exOutcomeBuildFail_build : exOutcomeBuildFail "starterkit_ci build" = false := by
  simp [exOutcomeBuildFail]

/-- Witness for C8: with all commands succeeding the build and deploy
commands are counted at most once, and with a failing build command the
job fails with the build invocation as the last executed command. -/
theorem build_deploy_once_fail_stops_witness :
    ((runJob exCtx exOutcome).1.count (Cmd.invoke "starterkit_ci build") ≤ 1 ∧
      (runJob exCtx exOutcome).1.count (Cmd.invoke "starterkit_ci deploy") ≤ 1) ∧
      (Cmd.invoke "starterkit_ci build" ∈ (runJob exCtx exOutcomeBuildFail).1 ∧
        exOutcomeBuildFail "starterkit_ci build" = false ∧
        ((runJob exCtx exOutcomeBuildFail).2 = false ∧
          (runJob exCtx exOutcomeBuildFail).1.getLast? =
            some (Cmd.invoke "starterkit_ci build"))) :=
  ⟨(build_deploy_once_fail_stops exCtx exOutcome).1,
    exCtx_build_fail_mem, exOutcomeBuildFail_build,
    (build_deploy_once_fail_stops exCtx exOutcomeBuildFail).2.1
      exCtx_build_fail_mem exOutcomeBuildFail_build⟩

/-- A row of the muon kinematics columns read by the pandas notebook:
the three momentum components of each of the two muons. -/
structure KinRow where
  mup_PX : ℝ
  mup_PY : ℝ
  mup_PZ : ℝ
  mum_PX : ℝ
  mum_PY : ℝ
  mum_PZ : ℝ

/-- The mup_P column of data_df, from
data_df.eval with mup_P = sqrt of the sum of squared mup components. -/
noncomputable def dataMupP (r : KinRow) : ℝ :=
  Real.sqrt (r.mup_PX ^ 2 + r.mup_PY ^ 2 + r.mup_PZ ^ 2)

/-- The mum_P column of data_df, from
data_df.eval with mum_P = sqrt of the sum of squared mum components. -/
noncomputable def dataMumP (r : KinRow) : ℝ :=
  Real.sqrt (r.mum_PX ^ 2 + r.mum_PY ^ 2 + r.mum_PZ ^ 2)

/-- The mup_P column of mc_df: the notebook cell computes it from the
mum_PX, mum_PY, mum_PZ components. -/
noncomputable def mcMupP (r : KinRow) : ℝ :=
  Real.sqrt (r.mum_PX ^ 2 + r.mum_PY ^ 2 + r.mum_PZ ^ 2)

/-- The mum_P column of mc_df, from the mum components. -/
noncomputable def mcMumP (r : KinRow) : ℝ :=
  Real.sqrt (r.mum_PX ^ 2 + r.mum_PY ^ 2 + r.mum_PZ ^ 2)

/-- C10: in mc_df the mup_P column is computed from the mum components,
so it equals the mum_P column on every row; in data_df the mup_P column
is computed from the mup components and the two columns differ in
general, witnessed by an explicit row. -/
theorem mc_mup_equals_mum_data_differs :
    (∀ r : KinRow, mcMupP r = mcMumP r) ∧
      ∃ r : KinRow, dataMupP r ≠ dataMumP r := by
  refine ⟨fun r => rfl, ⟨⟨3, 4, 0, 0, 0, 0⟩, ?_⟩⟩
  have h1 : dataMupP ⟨3, 4, 0, 0, 0, 0⟩ = 5 := by
    rw [dataMupP]
    rw [show (3 : ℝ) ^ 2 + 4 ^ 2 + 0 ^ 2 = 5 ^ 2 by norm_num]
    exact Real.sqrt_sq (by norm_num)
  have h2 : dataMumP ⟨3, 4, 0, 0, 0, 0⟩ = 0 := by
    rw [dataMumP]
    norm_num
  rw [h1, h2]
  norm_num
